import Mathlib

/-
Verification of the rebAIser rebase-orchestration pipeline.

Strings are modelled as lists of characters (`Str`).  The git, AI, GitHub,
test and notification collaborators are modelled as an environment of
oracle results (`Env`), and the orchestrator `performRebase` from
cmd/rebAIser/main.go is embedded as a pure function from a configuration
and an environment to a result together with the trace of collaborator
calls it makes.  The conflict parser `getConflictContent` from
internal/git/service.go and the test runner `RunTests` from
internal/test/service.go are embedded directly.
-/

namespace Rebaiser

/-- Go strings, modelled as lists of characters. -/
abbrev Str : Type := List Char

/-- Conversion from a Lean string literal to the `Str` model. -/
def str (s : String) : Str := s.toList

/-- Embedding of Go strings.Join: join a slice with a separator. -/
def goJoin (sep : Str) : List Str → Str
  | [] => []
  | [x] => x
  | x :: y :: t => x ++ sep ++ goJoin sep (y :: t)

/-- Embedding of Go strings.Split(s, newline): split into lines. -/
def splitNl : Str → List Str
  | [] => [[]]
  | c :: t =>
    if c = '\n' then [] :: splitNl t
    else
      match splitNl t with
      | [] => [[c]]
      | h :: r => (c :: h) :: r

/-- Embedding of Go strings.Contains(s, pat). -/
def goContains (pat : Str) : Str → Bool
  | [] => pat.isPrefixOf []
  | l@(_ :: t) => pat.isPrefixOf l || goContains pat t

set_option genInjectivity false in
/-- GitConflict record from internal/interfaces/git.go. -/
structure GitConflict where
  file : Str
  content : Str
  ours : Str
  theirs : Str

/-- Marker-scanning loop of getConflictContent (internal/git/service.go,
lines 124-144): the two-state flag automaton over the file's lines.  Note
the source checks the three markers with trailing spaces, exactly as the
Go code does. -/
def scanConflict : List Str → Bool → Bool → List Str × List Str
  | [], _, _ => ([], [])
  | line :: rest, inOurs, inTheirs =>
    if (str "<<<<<<< ").isPrefixOf line then scanConflict rest true inTheirs
    else if (str "======= ").isPrefixOf line then scanConflict rest false true
    else if (str ">>>>>>> ").isPrefixOf line then scanConflict rest inOurs false
    else
      let ot := scanConflict rest inOurs inTheirs
      if inOurs then (line :: ot.1, ot.2)
      else if inTheirs then (ot.1, line :: ot.2)
      else ot

/-- Embedding of getConflictContent (internal/git/service.go, lines
113-152) applied to the file's content (the read already performed). -/
def getConflictContent (file content : Str) : GitConflict :=
  let ot := scanConflict (splitNl content) false false
  { file := file, content := content,
    ours := goJoin (str "\n") ot.1, theirs := goJoin (str "\n") ot.2 }

/-- The per-file loop of GetConflicts (internal/git/service.go, lines
96-108).  A working tree is modelled as the unmerged-path listing paired
with each file's content, where `none` means the file could not be read.
Empty names are skipped, as is any file whose read fails (the code logs a
warning and continues). -/
def extractConflicts : List (Str × Option Str) → List GitConflict
  | [] => []
  | (f, c?) :: rest =>
    if f = [] then extractConflicts rest
    else
      match c? with
      | none => extractConflicts rest
      | some c => getConflictContent f c :: extractConflicts rest

set_option genInjectivity false in
/-- Collaborator call result: normal return, error return, or a panic. -/
inductive Res (α : Type) where
  | ok (a : α)
  | err (msg : Str)
  | crash

/-- Embedding of GetConflicts (internal/git/service.go, lines 83-111):
the only error return is a failure of the unmerged-file listing itself;
individual unreadable files are skipped. -/
def GetConflicts (listing : Res (List (Str × Option Str))) :
    Res (List GitConflict) :=
  match listing with
  | .crash => .crash
  | .err e => .err (str "failed to get conflict files: " ++ e)
  | .ok tree => .ok (extractConflicts tree)

/-- Embedding of isConflictError (cmd/rebAIser/main.go, lines 451-453). -/
def isConflictError (e : Str) : Bool :=
  goContains (str "conflict") e || goContains (str "CONFLICT") e

set_option genInjectivity false in
/-- TestResult from internal/interfaces/test.go.  A per-command result is
modelled as the command's name paired with its success flag. -/
structure TestResult where
  success : Bool
  duration : Nat
  results : List (Str × Bool)
  failedTests : List Str

set_option genInjectivity false in
/-- One collaborator call made by the pipeline, recorded in the trace. -/
inductive Event where
  | cloneEv
  | fetchEv
  | addRemoteEv
  | createBranchEv
  | rebaseEv
  | listConflictsEv
  | aiResolveEv (file : Str)
  | applyEv (file : Str)
  | aiCommitMsgEv (files : List Str)
  | gitCommitEv
  | runTestsEv
  | runCmdEv (name : Str)
  | pushEv
  | aiPRDescEv
  | createPREv
  | addReviewersEv
  | notifyEv (isError : Bool)
  | cleanupRemoveEv (dir : Str)
  | cleanupKeepEv (dir : Str)

set_option genInjectivity false in
/-- The collaborator environment: the result every external call would
return if made.  Per-file calls are keyed by the file name, per-command
test executions by the command name. -/
structure Env where
  mkdirTemp : Res Str
  cloneRes : Res Unit
  fetchFallbackRes : Res Unit
  addRemoteRes : Res Unit
  fetchRes : Res Unit
  createBranchRes : Res Unit
  rebaseRes : Res Unit
  listing : Res (List (Str × Option Str))
  aiResolve : Str → Res Str
  applyRes : Str → Res Unit
  commitMsgRes : Res Str
  commitRes : Res Unit
  pushRes : Res Unit
  prDescRes : Res Str
  createPRRes : Res Nat
  addReviewersRes : Res Unit
  notifyRes : Str → Res Unit
  testCall : Res Unit
  cmdSuccess : Str → Bool
  cmdDur : Str → Nat

set_option genInjectivity false in
/-- The configuration fields consulted by performRebase (internal/config
Config plus the CLI-driven fields set by main). -/
structure Config where
  dryRun : Bool
  keepArtifacts : Bool
  branch : Str
  reviewersTeam : Str
  testCommands : List Str
  internalRepo : Str
  upstreamRepo : Str

/-- Sequencing of two traced steps: errors and panics short-circuit,
success concatenates the traces (the shape of Go's early returns). -/
def seq {α β : Type} (x : Res α × List Event) (f : α → Res β × List Event) :
    Res β × List Event :=
  match x with
  | (.crash, tr) => (.crash, tr)
  | (.err e, tr) => (.err e, tr)
  | (.ok a, tr) => ((f a).1, tr ++ (f a).2)

/-- A single collaborator call that wraps its error with a message
prefix, as fmt.Errorf("...: %w", err) does. -/
def call {α : Type} (ev : Event) (wrapMsg : Str) (r : Res α) :
    Res α × List Event :=
  match r with
  | .crash => (.crash, [ev])
  | .err e => (.err (wrapMsg ++ e), [ev])
  | .ok a => (.ok a, [ev])

/-- Embedding of setupWorkingDirectory (cmd/rebAIser/main.go, lines
221-256): MkdirTemp, clone with fetch fallback, add upstream remote,
fetch. -/
def setupWorkingDirectory (env : Env) : Res Unit × List Event :=
  seq (match env.mkdirTemp with
       | .crash => (.crash, [])
       | .err e => (.err (str "failed to create temporary directory: " ++ e), [])
       | .ok _ => (.ok (), [])) (fun _ =>
  seq (match env.cloneRes with
       | .crash => (.crash, [.cloneEv])
       | .ok _ => (.ok (), [.cloneEv])
       | .err _ =>
         match env.fetchFallbackRes with
         | .crash => (.crash, [.cloneEv, .fetchEv])
         | .err e => (.err (str "failed to clone or fetch internal repo: " ++ e),
             [.cloneEv, .fetchEv])
         | .ok _ => (.ok (), [.cloneEv, .fetchEv])) (fun _ =>
  seq (call .addRemoteEv (str "failed to add upstream remote: ") env.addRemoteRes) (fun _ =>
  call .fetchEv (str "failed to fetch from repositories: ") env.fetchRes)))

/-- The rebase attempt inside performGitRebase (cmd/rebAIser/main.go,
lines 272-279): a rebase error is tolerated exactly when
isConflictError accepts it. -/
def rebaseStep (env : Env) : Res Unit × List Event :=
  match env.rebaseRes with
  | .crash => (.crash, [.rebaseEv])
  | .ok _ => (.ok (), [.rebaseEv])
  | .err e =>
    if isConflictError e then (.ok (), [.rebaseEv])
    else (.err (str "unexpected rebase error: " ++ e), [.rebaseEv])

/-- Embedding of performGitRebase (cmd/rebAIser/main.go, lines 259-289):
create the branch, attempt the rebase, then read the conflicts. -/
def performGitRebase (env : Env) : Res (List GitConflict) × List Event :=
  seq (call .createBranchEv (str "failed to create rebase branch: ") env.createBranchRes)
    (fun _ =>
  seq (rebaseStep env) (fun _ =>
  match env.listing with
  | .crash => (.crash, [.listConflictsEv])
  | .err e => (.err (str "failed to get conflicts: " ++ e), [.listConflictsEv])
  | .ok tree => (.ok (extractConflicts tree), [.listConflictsEv])))

/-- One iteration of the conflict-resolution loop (cmd/rebAIser/main.go,
lines 298-311): one AI call, then applying the resolution. -/
def resolveOne (env : Env) (c : GitConflict) : Res Unit × List Event :=
  seq (match env.aiResolve c.file with
       | .crash => (.crash, [.aiResolveEv c.file])
       | .err e => (.err (str "AI failed to resolve conflict in " ++ c.file
           ++ str ": " ++ e), [.aiResolveEv c.file])
       | .ok _ => (.ok (), [.aiResolveEv c.file])) (fun _ =>
  match env.applyRes c.file with
  | .crash => (.crash, [.applyEv c.file])
  | .err e => (.err (str "failed to apply resolution for " ++ c.file
      ++ str ": " ++ e), [.applyEv c.file])
  | .ok _ => (.ok (), [.applyEv c.file]))

/-- The sequential per-conflict loop of resolveConflictsWithAI. -/
def resolveLoop (env : Env) : List GitConflict → Res Unit × List Event
  | [] => (.ok (), [])
  | c :: rest => seq (resolveOne env c) (fun _ => resolveLoop env rest)

/-- The tail of resolveConflictsWithAI (cmd/rebAIser/main.go, lines
313-327): one batched commit-message generation over the full file list
followed by one commit. -/
def commitStep (env : Env) (conflicts : List GitConflict) :
    Res Unit × List Event :=
  seq (match env.commitMsgRes with
       | .crash => (.crash, [.aiCommitMsgEv (conflicts.map GitConflict.file)])
       | .err e => (.err (str "failed to generate commit message: " ++ e),
           [.aiCommitMsgEv (conflicts.map GitConflict.file)])
       | .ok _ => (.ok (), [.aiCommitMsgEv (conflicts.map GitConflict.file)])) (fun _ =>
  call .gitCommitEv (str "failed to commit resolved conflicts: ") env.commitRes)

/-- Embedding of resolveConflictsWithAI (cmd/rebAIser/main.go, lines
292-331): resolve each conflict in order, then generate one batched
commit message over all files and create one commit. -/
def resolveConflictsWithAI (env : Env) (conflicts : List GitConflict) :
    Res Unit × List Event :=
  seq (resolveLoop env conflicts) (fun _ => commitStep env conflicts)

/-- The per-command loop of RunTests (internal/test/service.go): each
command's result is recorded; a failure is appended to failedTests and
does not stop the remaining commands. -/
def runCmds (env : Env) : List Str → List (Str × Bool) × List Str
  | [] => ([], [])
  | n :: rest =>
    let rf := runCmds env rest
    if env.cmdSuccess n then ((n, true) :: rf.1, rf.2)
    else ((n, false) :: rf.1, n :: rf.2)

/-- Embedding of RunTests (internal/test/service.go, lines 26-67): an
empty command list short-circuits to a successful result. -/
def RunTests (env : Env) (cmds : List Str) : TestResult :=
  if cmds = [] then { success := true, duration := 0, results := [], failedTests := [] }
  else
    let rf := runCmds env cmds
    { success := rf.2.isEmpty, duration := (cmds.map env.cmdDur).sum,
      results := rf.1, failedTests := rf.2 }

/-- Embedding of Go fmt's %v for a string slice: "[a b c]". -/
def goFmtSlice (l : List Str) : Str :=
  '[' :: (goJoin (str " ") l ++ [']'])

/-- Embedding of runTests (cmd/rebAIser/main.go, lines 334-353). -/
def runTests (cfg : Config) (env : Env) : Res Unit × List Event :=
  match env.testCall with
  | .crash => (.crash, [.runTestsEv])
  | .err e => (.err (str "failed to run tests: " ++ e), [.runTestsEv])
  | .ok _ =>
    let r := RunTests env cfg.testCommands
    if r.success then (.ok (), .runTestsEv :: cfg.testCommands.map Event.runCmdEv)
    else (.err (str "tests failed: " ++ goFmtSlice r.failedTests),
      .runTestsEv :: cfg.testCommands.map Event.runCmdEv)

/-- The reviewer-assignment step of createPullRequest (cmd/rebAIser/
main.go, lines 390-394): only attempted when a team is configured, and
its failure is logged, never escalated. -/
def reviewersStep (cfg : Config) (env : Env) : Res Unit × List Event :=
  if cfg.reviewersTeam = [] then (.ok (), [])
  else
    match env.addReviewersRes with
    | .crash => (.crash, [.addReviewersEv])
    | _ => (.ok (), [.addReviewersEv])

/-- Embedding of createPullRequest (cmd/rebAIser/main.go, lines 356-398):
push, generate the description, create the PR, then add reviewers. -/
def createPullRequest (cfg : Config) (env : Env) : Res Unit × List Event :=
  seq (call .pushEv (str "failed to push branch: ") env.pushRes) (fun _ =>
  seq (call .aiPRDescEv (str "failed to generate PR description: ") env.prDescRes) (fun _ =>
  seq (call .createPREv (str "failed to create PR: ") env.createPRRes) (fun _ =>
  reviewersStep cfg env)))

/-- Embedding of sendErrorNotification followed by the phase's error
return (cmd/rebAIser/main.go, lines 436-448): notification failures are
swallowed, but a panic inside the notifier propagates. -/
def failWith (env : Env) (title : Str) (wrapped : Str) (tr : List Event) :
    Res Unit × List Event :=
  match env.notifyRes title with
  | .crash => (.crash, tr ++ [.notifyEv true])
  | _ => (.err wrapped, tr ++ [.notifyEv true])

/-- Phases 4-6 of performRebase: tests, PR creation, success
notification. -/
def runTestsAndAfter (cfg : Config) (env : Env) : Res Unit × List Event :=
  match runTests cfg env with
  | (.crash, tr) => (.crash, tr)
  | (.err e, tr) =>
    failWith env (str "AI Rebaser - Tests Failed") (str "tests failed: " ++ e) tr
  | (.ok _, tr) =>
    match createPullRequest cfg env with
    | (.crash, tr2) => (.crash, tr ++ tr2)
    | (.err e, tr2) =>
      failWith env (str "AI Rebaser - PR Creation Failed")
        (str "PR creation failed: " ++ e) (tr ++ tr2)
    | (.ok _, tr2) =>
      match env.notifyRes (str "AI Rebaser - Rebase Completed") with
      | .crash => (.crash, tr ++ tr2 ++ [.notifyEv false])
      | _ => (.ok (), tr ++ tr2 ++ [.notifyEv false])

/-- Phases 3-6 of performRebase: the resolve phase runs only when the
conflict list is non-empty (cmd/rebAIser/main.go, lines 189-196). -/
def resolveAndAfter (cfg : Config) (env : Env) (conflicts : List GitConflict) :
    Res Unit × List Event :=
  if conflicts.isEmpty then runTestsAndAfter cfg env
  else
    match resolveConflictsWithAI env conflicts with
    | (.crash, tr) => (.crash, tr)
    | (.err e, tr) =>
      failWith env (str "AI Rebaser - Conflict Resolution Failed")
        (str "conflict resolution failed: " ++ e) tr
    | (.ok _, tr) =>
      ((runTestsAndAfter cfg env).1, tr ++ (runTestsAndAfter cfg env).2)

/-- The body of performRebase before the deferred cleanup
(cmd/rebAIser/main.go, lines 175-217). -/
def performBody (cfg : Config) (env : Env) : Res Unit × List Event :=
  match setupWorkingDirectory env with
  | (.crash, tr) => (.crash, tr)
  | (.err e, tr) =>
    failWith env (str "AI Rebaser - Setup Failed") (str "setup failed: " ++ e) tr
  | (.ok _, tr1) =>
    match performGitRebase env with
    | (.crash, tr) => (.crash, tr1 ++ tr)
    | (.err e, tr) =>
      failWith env (str "AI Rebaser - Git Rebase Failed")
        (str "git rebase failed: " ++ e) (tr1 ++ tr)
    | (.ok conflicts, tr2) =>
      ((resolveAndAfter cfg env conflicts).1,
        tr1 ++ tr2 ++ (resolveAndAfter cfg env conflicts).2)

/-- The working directory recorded in cfg.ActualWorkingDir: set as soon
as MkdirTemp succeeds, empty otherwise. -/
def bodyDir (env : Env) : Str :=
  match env.mkdirTemp with
  | .ok d => d
  | _ => []

/-- Embedding of cleanupWorkingDirectory (cmd/rebAIser/main.go, lines
456-476): keep-artifacts logs and keeps, an empty directory is a no-op,
otherwise the directory is removed. -/
def cleanupWorkingDirectory (keep : Bool) (dir : Str) : List Event :=
  if keep then [.cleanupKeepEv dir]
  else if dir = [] then []
  else [.cleanupRemoveEv dir]

/-- Embedding of performRebase (cmd/rebAIser/main.go, lines 164-218):
the six-phase body with the deferred cleanup appended on every exit
path, as Go's defer guarantees. -/
def performRebase (cfg : Config) (env : Env) : Res Unit × List Event :=
  ((performBody cfg env).1,
    (performBody cfg env).2 ++ cleanupWorkingDirectory cfg.keepArtifacts (bodyDir env))

/-- The files passed to AI ResolveConflict calls, in trace order. -/
def aiCallsOf : List Event → List Str
  | [] => []
  | .aiResolveEv f :: t => f :: aiCallsOf t
  | _ :: t => aiCallsOf t

/-- The file batches passed to AI GenerateCommitMessage calls, in trace
order. -/
def commitMsgCallsOf : List Event → List (List Str)
  | [] => []
  | .aiCommitMsgEv fs :: t => fs :: commitMsgCallsOf t
  | _ :: t => commitMsgCallsOf t

/-- The number of git Commit calls in a trace. -/
def commitCallsOf : List Event → Nat
  | [] => 0
  | .gitCommitEv :: t => commitCallsOf t + 1
  | _ :: t => commitCallsOf t

/-- The first file of the conflict list whose AI resolution or whose
application returns an error (a panic is not an error return). -/
def firstResErr (env : Env) : List GitConflict → Option Str
  | [] => none
  | c :: rest =>
    match env.aiResolve c.file with
    | .err _ => some c.file
    | .crash => none
    | .ok _ =>
      match env.applyRes c.file with
      | .err _ => some c.file
      | .crash => none
      | .ok _ => firstResErr env rest

/-- Classifier for the cleanup events emitted by the deferred cleanup. -/
def Event.isCleanup : Event → Bool
  | .cleanupRemoveEv _ => true
  | .cleanupKeepEv _ => true
  | _ => false

/-- Classifier for the events of the conflict-resolution phase. -/
def Event.isResolvePhase : Event → Bool
  | .aiResolveEv _ => true
  | .applyEv _ => true
  | .aiCommitMsgEv _ => true
  | .gitCommitEv => true
  | _ => false

/-- An environment in which every collaborator call succeeds. -/
def okEnv : Env where
  mkdirTemp := .ok (str "/w")
  cloneRes := .ok ()
  fetchFallbackRes := .ok ()
  addRemoteRes := .ok ()
  fetchRes := .ok ()
  createBranchRes := .ok ()
  rebaseRes := .ok ()
  listing := .ok []
  aiResolve := fun _ => .ok (str "r")
  applyRes := fun _ => .ok ()
  commitMsgRes := .ok (str "m")
  commitRes := .ok ()
  pushRes := .ok ()
  prDescRes := .ok (str "d")
  createPRRes := .ok 7
  addReviewersRes := .ok ()
  notifyRes := fun _ => .ok ()
  testCall := .ok ()
  cmdSuccess := fun _ => true
  cmdDur := fun _ => 0

/-- A configuration with no test commands and no reviewer team. -/
def baseCfg : Config where
  dryRun := false
  keepArtifacts := false
  branch := str "main"
  reviewersTeam := []
  testCommands := []
  internalRepo := str "i"
  upstreamRepo := str "u"

/-- Content of a file with one well-formed conflict region exactly as
git writes it: the separator line is "=======" with no trailing space. -/
def gitStyleConflict : Str :=
  str "<<<<<<< a\no\n=======\nt\n>>>>>>> b"

/-- Classifier for the two publish calls named by the spec: pushing the
branch and creating the pull request. -/
def Event.isPublishCall : Event → Bool
  | .pushEv => true
  | .createPREv => true
  | _ => false

/-- A sample extracted conflict. -/
def aConflict : GitConflict :=
  { file := str "a.go", content := str "content", ours := str "o", theirs := str "t" }

/-- A second sample extracted conflict. -/
def bConflict : GitConflict :=
  { file := str "b.go", content := str "content2", ours := str "o2", theirs := str "t2" }

/-- A configuration with two test commands. -/
def testCfg : Config :=
  { baseCfg with testCommands := [str "build", str "lint"] }

/-- An environment in which every test command fails. -/
def failTestsEnv : Env :=
  { okEnv with cmdSuccess := fun _ => false }

/-- An environment in which the rebase fails without a conflict
signature in the message. -/
def rebaseFatalEnv : Env :=
  { okEnv with rebaseRes := .err (str "exit status 128") }

/-- An environment in which the AI refuses to resolve any conflict. -/
def resolveFailEnv : Env :=
  { okEnv with aiResolve := fun _ => .err (str "model unavailable") }

/-- Events of a sequenced step satisfy any property holding for both
parts. -/
theorem seq_pred {α β : Type} (P : Event → Prop) (x : Res α × List Event)
    (f : α → Res β × List Event)
    (hx : ∀ e ∈ x.2, P e) (hf : ∀ a, ∀ e ∈ (f a).2, P e) :
    ∀ e ∈ (seq x f).2, P e := by
  rcases x with ⟨r, tr⟩
  cases r with
  | ok a =>
    intro e he
    simp only [seq, List.mem_append] at he
    rcases he with h | h
    · exact hx e h
    · exact hf a e h
  | err m => exact hx
  | crash => exact hx

/-- The trace of a single wrapped call is exactly the call's event. -/
theorem call_snd {α : Type} (ev : Event) (w : Str) (r : Res α) :
    (call ev w r).2 = [ev] := by
  cases r <;> rfl

/-- The trace of an error return with notification appends one error
notification event. -/
theorem failWith_snd (env : Env) (t w : Str) (tr : List Event) :
    (failWith env t w tr).2 = tr ++ [.notifyEv true] := by
  unfold failWith
  cases env.notifyRes t <;> rfl

/-- All events of the setup phase are clone, fetch or add-remote. -/
theorem setup_events (env : Env) :
    ∀ e ∈ (setupWorkingDirectory env).2,
      e = Event.cloneEv ∨ e = Event.fetchEv ∨ e = Event.addRemoteEv := by
  unfold setupWorkingDirectory
  apply seq_pred
  · cases env.mkdirTemp <;> simp
  intro _
  apply seq_pred
  · rcases env.cloneRes with _ | _ | _ <;> try simp
    rcases env.fetchFallbackRes with _ | _ | _ <;> simp
  intro _
  apply seq_pred
  · rw [call_snd]; simp
  intro _
  rw [call_snd]; simp

/-- All events of the git-rebase phase are branch creation, rebase or
conflict listing. -/
theorem gitRebase_events (env : Env) :
    ∀ e ∈ (performGitRebase env).2,
      e = Event.createBranchEv ∨ e = Event.rebaseEv ∨ e = Event.listConflictsEv := by
  unfold performGitRebase
  apply seq_pred
  · rw [call_snd]; simp
  intro _
  apply seq_pred
  · unfold rebaseStep
    rcases env.rebaseRes with _ | e | _ <;> try simp
    by_cases h : isConflictError e = true <;> simp [h]
  intro _
  rcases env.listing with _ | _ | _ <;> simp

/-- All events emitted by the resolution loop are AI-resolve or apply
events for some file. -/
theorem resolveLoop_events (env : Env) (cs : List GitConflict) :
    ∀ e ∈ (resolveLoop env cs).2,
      (∃ f, e = Event.aiResolveEv f) ∨ (∃ f, e = Event.applyEv f) := by
  induction cs with
  | nil => simp [resolveLoop]
  | cons c rest ih =>
    unfold resolveLoop
    apply seq_pred
    · unfold resolveOne
      apply seq_pred
      · rcases env.aiResolve c.file with _ | _ | _ <;> simp
      intro _
      rcases env.applyRes c.file with _ | _ | _ <;> simp
    intro _
    exact ih

/-- All events of the resolve-conflicts phase belong to that phase. -/
theorem resolve_events (env : Env) (cs : List GitConflict) :
    ∀ e ∈ (resolveConflictsWithAI env cs).2, e.isResolvePhase = true := by
  unfold resolveConflictsWithAI
  apply seq_pred
  · intro e he
    rcases resolveLoop_events env cs e he with ⟨f, rfl⟩ | ⟨f, rfl⟩ <;> rfl
  intro _
  unfold commitStep
  apply seq_pred
  · rcases env.commitMsgRes with _ | _ | _ <;> simp [Event.isResolvePhase]
  intro _
  rw [call_snd]
  simp [Event.isResolvePhase]

/-- All events of the test phase are the RunTests call or per-command
executions. -/
theorem runTests_events (cfg : Config) (env : Env) :
    ∀ e ∈ (runTests cfg env).2,
      e = Event.runTestsEv ∨ ∃ n, e = Event.runCmdEv n := by
  unfold runTests
  rcases env.testCall with _ | _ | _ <;> try simp
  by_cases h : (RunTests env cfg.testCommands).success = true <;> simp [h]

/-- All events of the publish phase are push, PR description, PR
creation or reviewer assignment. -/
theorem publish_events (cfg : Config) (env : Env) :
    ∀ e ∈ (createPullRequest cfg env).2,
      e = Event.pushEv ∨ e = Event.aiPRDescEv ∨ e = Event.createPREv ∨
        e = Event.addReviewersEv := by
  unfold createPullRequest
  apply seq_pred
  · rw [call_snd]; simp
  intro _
  apply seq_pred
  · rw [call_snd]; simp
  intro _
  apply seq_pred
  · rw [call_snd]; simp
  intro _
  unfold reviewersStep
  by_cases h : cfg.reviewersTeam = [] <;> try simp [h]
  rcases env.addReviewersRes with _ | _ | _ <;> simp [h]

/-- Events of phases 4-6 satisfy any property holding for the test
phase, the publish phase and notifications. -/
theorem runTestsAndAfter_pred (P : Event → Prop) (cfg : Config) (env : Env)
    (htests : ∀ e ∈ (runTests cfg env).2, P e)
    (hpub : ∀ e ∈ (createPullRequest cfg env).2, P e)
    (hnotify : ∀ b, P (.notifyEv b)) :
    ∀ e ∈ (runTestsAndAfter cfg env).2, P e := by
  unfold runTestsAndAfter
  rcases h : runTests cfg env with ⟨r, tr⟩
  rw [h] at htests
  cases r with
  | crash => exact htests
  | err m =>
    rw [failWith_snd]
    intro e he
    rcases List.mem_append.mp he with h1 | h1
    · exact htests e h1
    · rcases List.mem_singleton.mp h1 with rfl; exact hnotify true
  | ok _ =>
    rcases h2 : createPullRequest cfg env with ⟨r2, tr2⟩
    rw [h2] at hpub
    have hboth : ∀ e ∈ tr ++ tr2, P e := by
      intro e he
      rcases List.mem_append.mp he with h1 | h1
      · exact htests e h1
      · exact hpub e h1
    cases r2 with
    | crash => exact hboth
    | err m =>
      rw [failWith_snd]
      intro e he
      rcases List.mem_append.mp he with h1 | h1
      · exact hboth e h1
      · rcases List.mem_singleton.mp h1 with rfl; exact hnotify true
    | ok _ =>
      have htail : ∀ e ∈ tr ++ tr2 ++ [Event.notifyEv false], P e := by
        intro e he
        rcases List.mem_append.mp he with h1 | h1
        · exact hboth e h1
        · rcases List.mem_singleton.mp h1 with rfl; exact hnotify false
      cases env.notifyRes (str "AI Rebaser - Rebase Completed") <;> exact htail

/-- Events of phases 3-6 satisfy any property holding for the resolve
phase, the test phase, the publish phase and notifications. -/
theorem resolveAndAfter_pred (P : Event → Prop) (cfg : Config) (env : Env)
    (cs : List GitConflict)
    (hres : ∀ e ∈ (resolveConflictsWithAI env cs).2, P e)
    (htests : ∀ e ∈ (runTests cfg env).2, P e)
    (hpub : ∀ e ∈ (createPullRequest cfg env).2, P e)
    (hnotify : ∀ b, P (.notifyEv b)) :
    ∀ e ∈ (resolveAndAfter cfg env cs).2, P e := by
  have hafter := runTestsAndAfter_pred P cfg env htests hpub hnotify
  unfold resolveAndAfter
  by_cases hcs : cs.isEmpty = true
  · simp only [hcs, if_pos]
    exact hafter
  · simp only [hcs, if_neg, Bool.false_eq_true, not_false_iff]
    rcases h : resolveConflictsWithAI env cs with ⟨r, tr⟩
    rw [h] at hres
    cases r with
    | crash => exact hres
    | err m =>
      rw [failWith_snd]
      intro e he
      rcases List.mem_append.mp he with h1 | h1
      · exact hres e h1
      · rcases List.mem_singleton.mp h1 with rfl; exact hnotify true
    | ok _ =>
      intro e he
      rcases List.mem_append.mp he with h1 | h1
      · exact hres e h1
      · exact hafter e h1

/-- Events of the whole pipeline body satisfy any property holding for
every phase and for notifications. -/
theorem performBody_pred (P : Event → Prop) (cfg : Config) (env : Env)
    (hsetup : ∀ e ∈ (setupWorkingDirectory env).2, P e)
    (hrebase : ∀ e ∈ (performGitRebase env).2, P e)
    (hres : ∀ cs, ∀ e ∈ (resolveConflictsWithAI env cs).2, P e)
    (htests : ∀ e ∈ (runTests cfg env).2, P e)
    (hpub : ∀ e ∈ (createPullRequest cfg env).2, P e)
    (hnotify : ∀ b, P (.notifyEv b)) :
    ∀ e ∈ (performBody cfg env).2, P e := by
  unfold performBody
  rcases h : setupWorkingDirectory env with ⟨r, tr⟩
  rw [h] at hsetup
  cases r with
  | crash => exact hsetup
  | err m =>
    rw [failWith_snd]
    intro e he
    rcases List.mem_append.mp he with h1 | h1
    · exact hsetup e h1
    · rcases List.mem_singleton.mp h1 with rfl; exact hnotify true
  | ok _ =>
    rcases h2 : performGitRebase env with ⟨r2, tr2⟩
    rw [h2] at hrebase
    have hboth : ∀ e ∈ tr ++ tr2, P e := by
      intro e he
      rcases List.mem_append.mp he with h1 | h1
      · exact hsetup e h1
      · exact hrebase e h1
    cases r2 with
    | crash => exact hboth
    | err m =>
      rw [failWith_snd]
      intro e he
      rcases List.mem_append.mp he with h1 | h1
      · exact hboth e h1
      · rcases List.mem_singleton.mp h1 with rfl; exact hnotify true
    | ok cs =>
      intro e he
      dsimp only at he
      rw [List.append_assoc] at he
      rcases List.mem_append.mp he with h1 | h1
      · exact hsetup e h1
      rcases List.mem_append.mp h1 with h2' | h2'
      · exact hrebase e h2'
      · exact resolveAndAfter_pred P cfg env cs (hres cs) htests hpub hnotify e h2'

/-- The body of the pipeline never emits a cleanup event; cleanup events
come only from the deferred cleanup. -/
theorem performBody_no_cleanup (cfg : Config) (env : Env) :
    ∀ e ∈ (performBody cfg env).2, e.isCleanup = false := by
  apply performBody_pred
  · intro e he
    rcases setup_events env e he with rfl | rfl | rfl <;> rfl
  · intro e he
    rcases gitRebase_events env e he with rfl | rfl | rfl <;> rfl
  · intro cs e he
    have h := resolve_events env cs e he
    cases e <;> first | rfl | exact Bool.noConfusion h
  · intro e he
    rcases runTests_events cfg env e he with rfl | ⟨n, rfl⟩ <;> rfl
  · intro e he
    rcases publish_events cfg env e he with rfl | rfl | rfl | rfl <;> rfl
  · intro b; rfl

/-- goContains decides the substring relation, as strings.Contains
does. -/
theorem goContains_iff (pat s : Str) : goContains pat s = true ↔ pat <:+: s := by
  induction s with
  | nil =>
    simp only [goContains, List.isPrefixOf_iff_prefix]
    constructor
    · intro h; exact h.isInfix
    · intro h; simp at h; simp [h]
  | cons a t ih =>
    simp only [goContains, Bool.or_eq_true, List.isPrefixOf_iff_prefix, ih,
      List.infix_cons_iff]

/-- An infix of a list is an infix of any left-extension of it. -/
theorem infix_ext_left {x r : Str} (w : Str) (h : x <:+: r) : x <:+: w ++ r := by
  obtain ⟨s, t, hh⟩ := h
  exact ⟨w ++ s, t, by rw [← hh]; simp⟩

/-- Every member of a joined slice is a substring of the join. -/
theorem mem_goJoin_sub (sep : Str) (l : List Str) (x : Str) (hx : x ∈ l) :
    x <:+: goJoin sep l := by
  induction l with
  | nil => simp at hx
  | cons a t ih =>
    cases t with
    | nil =>
      simp at hx
      subst hx
      exact List.infix_refl x
    | cons b r =>
      rcases List.mem_cons.mp hx with rfl | hx
      · show x <:+: x ++ sep ++ goJoin sep (b :: r)
        rw [List.append_assoc]
        exact (List.prefix_append x (sep ++ goJoin sep (b :: r))).isInfix
      · have h2 := ih hx
        show x <:+: a ++ sep ++ goJoin sep (b :: r)
        rw [List.append_assoc]
        exact infix_ext_left a (infix_ext_left sep h2)

/-- Every member of a slice is a substring of its fmt %v rendering. -/
theorem mem_goFmtSlice_sub (l : List Str) (x : Str) (hx : x ∈ l) :
    x <:+: goFmtSlice l := by
  have h := mem_goJoin_sub (str " ") l x hx
  obtain ⟨s, t, hh⟩ := h
  exact ⟨'[' :: s, t ++ [']'], by simp [goFmtSlice, ← hh]⟩

/-- A failing command's name enters the failed-test list. -/
theorem runCmds_mem_failed (env : Env) (cmds : List Str) (n : Str)
    (hn : n ∈ cmds) (hf : env.cmdSuccess n = false) :
    n ∈ (runCmds env cmds).2 := by
  induction cmds with
  | nil => simp at hn
  | cons a t ih =>
    rcases List.mem_cons.mp hn with rfl | hn
    · simp [runCmds, hf]
    · have h2 := ih hn
      unfold runCmds
      by_cases ha : env.cmdSuccess a = true <;> simp [ha, h2]

/-- Events of the deferred cleanup are cleanup events. -/
theorem cleanup_events_isCleanup (k : Bool) (d : Str) :
    ∀ e ∈ cleanupWorkingDirectory k d, e.isCleanup = true := by
  unfold cleanupWorkingDirectory
  split_ifs <;> intro e he <;> simp at he <;> subst he <;> rfl

/-- The RunTests collaborator call is always recorded by the test
phase. -/
theorem runTests_mem_start (cfg : Config) (env : Env) :
    Event.runTestsEv ∈ (runTests cfg env).2 := by
  unfold runTests
  rcases env.testCall with _ | _ | _ <;> try simp
  by_cases h : (RunTests env cfg.testCommands).success = true <;> simp [h]

/-- The push call is always recorded by the publish phase. -/
theorem push_mem_publish (cfg : Config) (env : Env) :
    Event.pushEv ∈ (createPullRequest cfg env).2 := by
  unfold createPullRequest
  rcases env.pushRes with _ | _ | _ <;> simp [seq, call]

/-- Every event of the test phase also appears in phases 4-6. -/
theorem mem_runTestsAndAfter_of_tests (cfg : Config) (env : Env) (e : Event)
    (he : e ∈ (runTests cfg env).2) : e ∈ (runTestsAndAfter cfg env).2 := by
  unfold runTestsAndAfter
  rcases h : runTests cfg env with ⟨r, tr⟩
  rw [h] at he
  cases r with
  | crash => exact he
  | err m => rw [failWith_snd]; exact List.mem_append_left _ he
  | ok _ =>
    rcases h2 : createPullRequest cfg env with ⟨r2, tr2⟩
    cases r2 with
    | crash => exact List.mem_append_left _ he
    | err m =>
      rw [failWith_snd]
      exact List.mem_append_left _ (List.mem_append_left _ he)
    | ok _ =>
      cases env.notifyRes (str "AI Rebaser - Rebase Completed") <;>
        exact List.mem_append_left _ (List.mem_append_left _ he)

/-- When the tests pass, the publish phase is reached: the push call
appears in phases 4-6. -/
theorem push_mem_runTestsAndAfter (cfg : Config) (env : Env)
    (h : (runTests cfg env).1 = .ok ()) :
    Event.pushEv ∈ (runTestsAndAfter cfg env).2 := by
  unfold runTestsAndAfter
  rcases hr : runTests cfg env with ⟨r, tr⟩
  rw [hr] at h
  dsimp at h
  subst h
  rcases h2 : createPullRequest cfg env with ⟨r2, tr2⟩
  have hp : Event.pushEv ∈ tr2 := by
    have h3 := push_mem_publish cfg env
    rw [h2] at h3
    exact h3
  cases r2 with
  | crash => exact List.mem_append_right _ hp
  | err m =>
    rw [failWith_snd]
    exact List.mem_append_left _ (List.mem_append_right _ hp)
  | ok _ =>
    cases env.notifyRes (str "AI Rebaser - Rebase Completed") <;>
      exact List.mem_append_left _ (List.mem_append_right _ hp)

/-- Events of phases 4-6 appear in phases 3-6 whenever the resolve step
does not abort. -/
theorem mem_resolveAndAfter (cfg : Config) (env : Env) (cs : List GitConflict)
    (e : Event)
    (hres : cs = [] ∨ (resolveConflictsWithAI env cs).1 = .ok ())
    (he : e ∈ (runTestsAndAfter cfg env).2) :
    e ∈ (resolveAndAfter cfg env cs).2 := by
  unfold resolveAndAfter
  rcases hres with rfl | hok
  · simp only [List.isEmpty_nil, if_true]
    exact he
  · by_cases hcs : cs.isEmpty = true
    · simp only [hcs, if_true]
      exact he
    · simp only [hcs, Bool.false_eq_true, if_false]
      rcases h2 : resolveConflictsWithAI env cs with ⟨r2, tr2⟩
      rw [h2] at hok
      dsimp at hok
      subst hok
      exact List.mem_append_right _ he

/-- Events of phases 3-6 appear in the body when setup and the rebase
phase succeed. -/
theorem mem_body_of_after (cfg : Config) (env : Env) (cs : List GitConflict)
    (e : Event)
    (hsetup : (setupWorkingDirectory env).1 = .ok ())
    (hreb : (performGitRebase env).1 = .ok cs)
    (hres : cs = [] ∨ (resolveConflictsWithAI env cs).1 = .ok ())
    (he : e ∈ (runTestsAndAfter cfg env).2) :
    e ∈ (performBody cfg env).2 := by
  have h1 := mem_resolveAndAfter cfg env cs e hres he
  unfold performBody
  rcases hsp : setupWorkingDirectory env with ⟨rS, trS⟩
  rw [hsp] at hsetup
  dsimp at hsetup
  subst hsetup
  rcases hrb : performGitRebase env with ⟨rR, trB⟩
  rw [hrb] at hreb
  dsimp at hreb
  subst hreb
  dsimp only
  exact List.mem_append_right _ h1

/-- Events of the git-rebase phase appear in the body when setup
succeeds. -/
theorem rebase_mem_body (cfg : Config) (env : Env) (e : Event)
    (hsetup : (setupWorkingDirectory env).1 = .ok ())
    (he : e ∈ (performGitRebase env).2) :
    e ∈ (performBody cfg env).2 := by
  unfold performBody
  rcases hsp : setupWorkingDirectory env with ⟨rS, trS⟩
  rw [hsp] at hsetup
  dsimp at hsetup
  subst hsetup
  rcases hrb : performGitRebase env with ⟨rR, trB⟩
  rw [hrb] at he
  cases rR with
  | crash => exact List.mem_append_right _ he
  | err m =>
    rw [failWith_snd]
    exact List.mem_append_left _ (List.mem_append_right _ he)
  | ok cs =>
    dsimp only
    rw [List.append_assoc]
    exact List.mem_append_right _ (List.mem_append_left _ he)

/-- C1: evaluation of getConflictContent at a file whose single
well-formed conflict region is written exactly as git writes it (the
separator line is "=======", no trailing space).  The scanner checks for
the prefix "======= " with a trailing space, so it never flips to
accumulating theirs: `theirs` comes back empty and `ours` swallows the
separator line, the theirs block and everything after the closing
marker, contradicting the claimed ours/theirs capture. -/
theorem C1_separator_never_recognized :
    getConflictContent (str "f") gitStyleConflict =
      { file := str "f", content := gitStyleConflict,
        ours := str "o\n=======\nt", theirs := [] } := rfl

/-- C8: counterexample.  A working tree whose unmerged listing contains
a file that cannot be read ("a.go" here) does not make GetConflicts
return an error: the file is skipped and the remaining conflicts are
returned, so the claimed IOError failure never happens. -/
theorem C8_unreadable_file_not_error :
    GetConflicts (.ok [(str "a", none), (str "b", some (str "x"))]) =
      .ok [getConflictContent (str "b") (str "x")] ∧
    ∀ e, GetConflicts (.ok [(str "a", none), (str "b", some (str "x"))]) ≠
      .err e := by
  refine ⟨rfl, ?_⟩
  intro e h
  rw [show GetConflicts (.ok [(str "a", none), (str "b", some (str "x"))]) =
      .ok [getConflictContent (str "b") (str "x")] from rfl] at h
  exact Res.noConfusion h

/-- C8 (amended): an unmerged file that cannot be read is skipped, and
GetConflicts returns the conflicts of the readable files without error;
an error is returned only when the unmerged-file listing itself fails. -/
theorem C8_amended_unreadable_skipped (tree : List (Str × Option Str)) :
    GetConflicts (.ok tree) =
      .ok (tree.filterMap fun p =>
        if p.1 = [] then none else Option.map (getConflictContent p.1) p.2) := by
  simp only [GetConflicts]
  congr 1
  induction tree with
  | nil => rfl
  | cons p rest ih =>
    rcases p with ⟨f, c?⟩
    by_cases hf : f = []
    · simp [extractConflicts, hf, List.filterMap_cons, ih]
    · cases c? <;> simp [extractConflicts, hf, List.filterMap_cons, ih]

/-- C9: the pipeline never consults the dry-run flag.  Two runs whose
configurations differ only in DryRun produce identical results and
identical call traces: the branch is pushed and a real pull request is
created in dry-run mode exactly as in normal mode. -/
theorem C9_dry_run_independent (cfg : Config) (env : Env) (b : Bool) :
    performRebase { cfg with dryRun := b } env = performRebase cfg env := rfl

/-- C2: when the pipeline reaches the test phase and at least one
configured test command fails, the run returns an error whose message
contains "tests failed" and the name of every failed command, and the
publish phase is never invoked: no push call and no PR-creation call
appear in the trace. -/
theorem C2_test_failure_aborts (cfg : Config) (env : Env) (cs : List GitConflict)
    (hsetup : (setupWorkingDirectory env).1 = .ok ())
    (hreb : (performGitRebase env).1 = .ok cs)
    (hres : cs = [] ∨ (resolveConflictsWithAI env cs).1 = .ok ())
    (htc : env.testCall = .ok ())
    (hfail : ∃ n ∈ cfg.testCommands, env.cmdSuccess n = false)
    (hnc : env.notifyRes (str "AI Rebaser - Tests Failed") ≠ .crash) :
    ∃ msg, (performRebase cfg env).1 = .err msg ∧
      str "tests failed" <:+: msg ∧
      (∀ n ∈ cfg.testCommands, env.cmdSuccess n = false → n <:+: msg) ∧
      Event.pushEv ∉ (performRebase cfg env).2 ∧
      Event.createPREv ∉ (performRebase cfg env).2 := by
  obtain ⟨n0, hn0, hn0f⟩ := hfail
  have hcmds : ¬ cfg.testCommands = [] := by
    intro h
    rw [h] at hn0
    exact absurd hn0 (List.not_mem_nil n0)
  have hmem0 : n0 ∈ (runCmds env cfg.testCommands).2 :=
    runCmds_mem_failed env _ n0 hn0 hn0f
  have hfld : (runCmds env cfg.testCommands).2 ≠ [] := by
    intro h
    rw [h] at hmem0
    exact absurd hmem0 (List.not_mem_nil n0)
  have hsucc : (RunTests env cfg.testCommands).success = false := by
    unfold RunTests
    rw [if_neg hcmds]
    cases h2 : (runCmds env cfg.testCommands).2 with
    | nil => exact absurd h2 hfld
    | cons a t => simp [h2]
  have hflds : (RunTests env cfg.testCommands).failedTests =
      (runCmds env cfg.testCommands).2 := by
    unfold RunTests
    rw [if_neg hcmds]
  have hTfail : runTests cfg env =
      (.err (str "tests failed: " ++ goFmtSlice (runCmds env cfg.testCommands).2),
       .runTestsEv :: cfg.testCommands.map Event.runCmdEv) := by
    unfold runTests
    rw [htc]
    simp only [hsucc, Bool.false_eq_true, if_false, hflds]
  have hrta : runTestsAndAfter cfg env =
      (.err (str "tests failed: " ++
        (str "tests failed: " ++ goFmtSlice (runCmds env cfg.testCommands).2)),
       (.runTestsEv :: cfg.testCommands.map Event.runCmdEv) ++ [.notifyEv true]) := by
    rcases hnr : env.notifyRes (str "AI Rebaser - Tests Failed") with _ | _ | _
    · simp [runTestsAndAfter, hTfail, failWith, hnr]
    · simp [runTestsAndAfter, hTfail, failWith, hnr]
    · exact absurd hnr hnc
  have hraa : (resolveAndAfter cfg env cs).1 = (runTestsAndAfter cfg env).1 ∧
      ∃ pre, (resolveAndAfter cfg env cs).2 = pre ++ (runTestsAndAfter cfg env).2 ∧
        ∀ e ∈ pre, e.isResolvePhase = true := by
    rcases hres with rfl | hok
    · exact ⟨by simp [resolveAndAfter], [], by simp [resolveAndAfter], by simp⟩
    · by_cases hcs : cs.isEmpty = true
      · exact ⟨by simp [resolveAndAfter, hcs], [], by simp [resolveAndAfter, hcs], by simp⟩
      · have hre : ∀ e ∈ (resolveConflictsWithAI env cs).2, e.isResolvePhase = true :=
          resolve_events env cs
        rcases h2 : resolveConflictsWithAI env cs with ⟨r2, tr2⟩
        rw [h2] at hok
        dsimp at hok
        subst hok
        rw [h2] at hre
        refine ⟨?_, tr2, ?_, hre⟩
        · simp [resolveAndAfter, hcs, h2]
        · simp [resolveAndAfter, hcs, h2]
  obtain ⟨hraa1, pre, hraa2, hpre⟩ := hraa
  rcases hsp : setupWorkingDirectory env with ⟨rS, trS⟩
  rw [hsp] at hsetup
  dsimp at hsetup
  subst hsetup
  rcases hrb : performGitRebase env with ⟨rR, trB⟩
  rw [hrb] at hreb
  dsimp at hreb
  subst hreb
  have hbody1 : (performBody cfg env).1 = (resolveAndAfter cfg env cs).1 := by
    unfold performBody
    rw [hsp, hrb]
  have hbody2 : (performBody cfg env).2 =
      trS ++ trB ++ (resolveAndAfter cfg env cs).2 := by
    unfold performBody
    rw [hsp, hrb]
  have hnp : ∀ e ∈ (performRebase cfg env).2, e.isPublishCall = false := by
    intro e he
    unfold performRebase at he
    rcases List.mem_append.mp he with hb | hc
    · rw [hbody2] at hb
      rw [List.append_assoc] at hb
      rcases List.mem_append.mp hb with h1 | h1
      · have := setup_events env e (by rw [hsp]; exact h1)
        rcases this with rfl | rfl | rfl <;> rfl
      rcases List.mem_append.mp h1 with h2 | h2
      · have := gitRebase_events env e (by rw [hrb]; exact h2)
        rcases this with rfl | rfl | rfl <;> rfl
      rw [hraa2] at h2
      rcases List.mem_append.mp h2 with h3 | h3
      · have := hpre e h3
        cases e <;> first | rfl | exact Bool.noConfusion this
      rw [hrta] at h3
      rcases List.mem_append.mp h3 with h4 | h4
      · rcases List.mem_cons.mp h4 with rfl | h5
        · rfl
        · rcases List.mem_map.mp h5 with ⟨m, _, rfl⟩
          rfl
      · rcases List.mem_singleton.mp h4 with rfl
        rfl
    · have := cleanup_events_isCleanup cfg.keepArtifacts (bodyDir env) e hc
      cases e <;> first | rfl | exact Bool.noConfusion this
  refine ⟨str "tests failed: " ++
      (str "tests failed: " ++ goFmtSlice (runCmds env cfg.testCommands).2),
    ?_, ?_, ?_, ?_, ?_⟩
  · show (performBody cfg env).1 = _
    rw [hbody1, hraa1, hrta]
  · have hdec : str "tests failed: " = str "tests failed" ++ str ": " := rfl
    rw [hdec, List.append_assoc]
    exact (List.prefix_append _ _).isInfix
  · intro n hn hnf
    have h1 : n ∈ (runCmds env cfg.testCommands).2 :=
      runCmds_mem_failed env _ n hn hnf
    have h2 := mem_goFmtSlice_sub _ n h1
    exact infix_ext_left _ (infix_ext_left _ h2)
  · intro hmem
    have := hnp _ hmem
    exact Bool.noConfusion ((rfl : Event.isPublishCall Event.pushEv = true).symm.trans this)
  · intro hmem
    have := hnp _ hmem
    exact Bool.noConfusion ((rfl : Event.isPublishCall Event.pushEv = true).symm.trans this)

/-- C2 witness: the theorem applied to a concrete run with two
configured commands, both failing. -/
theorem C2_test_failure_aborts_witness :
    ∃ msg, (performRebase testCfg failTestsEnv).1 = .err msg ∧
      str "tests failed" <:+: msg ∧
      (∀ n ∈ testCfg.testCommands, failTestsEnv.cmdSuccess n = false → n <:+: msg) ∧
      Event.pushEv ∉ (performRebase testCfg failTestsEnv).2 ∧
      Event.createPREv ∉ (performRebase testCfg failTestsEnv).2 :=
  C2_test_failure_aborts testCfg failTestsEnv [] rfl rfl
    (Or.inl rfl) rfl ⟨str "build", List.mem_cons_self _ _, rfl⟩
    (fun h => Res.noConfusion h)

/-- C3: on every exit path of the pipeline, including phase failures and
injected panics (the environment quantifies over all of them), the
deferred cleanup runs last: it removes the working directory created by
setup unless keep-artifacts is set, in which case the path is logged and
nothing is removed; when setup created no directory, cleanup is a
no-op. -/
theorem C3_cleanup_on_every_exit (cfg : Config) (env : Env) :
    (∀ d, env.mkdirTemp = .ok d → d ≠ [] → cfg.keepArtifacts = false →
      (performRebase cfg env).2.getLast? = some (.cleanupRemoveEv d)) ∧
    (cfg.keepArtifacts = true →
      (∀ d, Event.cleanupRemoveEv d ∉ (performRebase cfg env).2) ∧
      (performRebase cfg env).2.getLast? = some (.cleanupKeepEv (bodyDir env))) ∧
    (bodyDir env = [] → cfg.keepArtifacts = false →
      ∀ d, Event.cleanupRemoveEv d ∉ (performRebase cfg env).2 ∧
        Event.cleanupKeepEv d ∉ (performRebase cfg env).2) := by
  refine ⟨?_, ?_, ?_⟩
  · intro d hd hne hkeep
    have hbd : bodyDir env = d := by simp [bodyDir, hd]
    have hcl : cleanupWorkingDirectory cfg.keepArtifacts (bodyDir env) =
        [.cleanupRemoveEv d] := by
      unfold cleanupWorkingDirectory
      rw [hbd, hkeep]
      simp [hne]
    unfold performRebase
    rw [hcl]
    exact List.getLast?_concat _
  · intro hkeep
    constructor
    · intro d hmem
      unfold performRebase at hmem
      rcases List.mem_append.mp hmem with hb | hc
      · have h1 := performBody_no_cleanup cfg env _ hb
        exact Bool.noConfusion ((rfl : Event.isCleanup (Event.cleanupRemoveEv d) = true).symm.trans h1)
      · unfold cleanupWorkingDirectory at hc
        rw [hkeep] at hc
        simp at hc
    · have hcl : cleanupWorkingDirectory cfg.keepArtifacts (bodyDir env) =
          [.cleanupKeepEv (bodyDir env)] := by
        unfold cleanupWorkingDirectory
        rw [hkeep]
        simp
      unfold performRebase
      rw [hcl]
      exact List.getLast?_concat _
  · intro hbd hkeep d
    have hcl : cleanupWorkingDirectory cfg.keepArtifacts (bodyDir env) = [] := by
      unfold cleanupWorkingDirectory
      rw [hkeep, hbd]
      simp
    constructor <;> intro hmem <;>
    · unfold performRebase at hmem
      rw [hcl, List.append_nil] at hmem
      have h1 := performBody_no_cleanup cfg env _ hmem
      exact Bool.noConfusion ((rfl : Event.isCleanup (Event.cleanupRemoveEv d) = true).symm.trans h1)

/-- C3 witness: on a fully successful concrete run without
keep-artifacts, the last trace event removes the created directory. -/
theorem C3_cleanup_witness :
    (performRebase baseCfg okEnv).2.getLast? =
      some (.cleanupRemoveEv (str "/w")) :=
  (C3_cleanup_on_every_exit baseCfg okEnv).1 (str "/w")
    rfl (by decide) rfl

/-- C4: when conflict extraction after the rebase returns zero
conflicts, the resolve phase is skipped entirely: the trace contains no
AI resolve call, no resolution application, no commit-message call and
no commit, and the pipeline still reaches the test phase. -/
theorem C4_zero_conflicts_skip (cfg : Config) (env : Env)
    (hsetup : (setupWorkingDirectory env).1 = .ok ())
    (hreb : (performGitRebase env).1 = .ok []) :
    (∀ e ∈ (performRebase cfg env).2, e.isResolvePhase = false) ∧
    Event.runTestsEv ∈ (performRebase cfg env).2 := by
  constructor
  · intro e he
    unfold performRebase at he
    rcases List.mem_append.mp he with hb | hc
    · rcases hsp : setupWorkingDirectory env with ⟨rS, trS⟩
      rw [hsp] at hsetup
      dsimp at hsetup
      subst hsetup
      rcases hrb : performGitRebase env with ⟨rR, trB⟩
      rw [hrb] at hreb
      dsimp at hreb
      subst hreb
      have hbody2 : (performBody cfg env).2 =
          trS ++ trB ++ (resolveAndAfter cfg env []).2 := by
        unfold performBody
        rw [hsp, hrb]
      have hres0 : resolveAndAfter cfg env [] = runTestsAndAfter cfg env := by
        simp [resolveAndAfter]
      rw [hbody2, hres0, List.append_assoc] at hb
      rcases List.mem_append.mp hb with h1 | h1
      · rcases setup_events env e (by rw [hsp]; exact h1) with rfl | rfl | rfl <;> rfl
      rcases List.mem_append.mp h1 with h2 | h2
      · rcases gitRebase_events env e (by rw [hrb]; exact h2) with rfl | rfl | rfl <;> rfl
      · refine runTestsAndAfter_pred (fun e => e.isResolvePhase = false) cfg env
          ?_ ?_ ?_ e h2
        · intro e' he'
          rcases runTests_events cfg env e' he' with rfl | ⟨n, rfl⟩ <;> rfl
        · intro e' he'
          rcases publish_events cfg env e' he' with rfl | rfl | rfl | rfl <;> rfl
        · intro b; rfl
    · have h1 := cleanup_events_isCleanup cfg.keepArtifacts (bodyDir env) e hc
      cases e <;> first | rfl | exact Bool.noConfusion h1
  · have h1 : Event.runTestsEv ∈ (performBody cfg env).2 :=
      mem_body_of_after cfg env [] _ hsetup hreb (Or.inl rfl)
        (mem_runTestsAndAfter_of_tests cfg env _ (runTests_mem_start cfg env))
    unfold performRebase
    exact List.mem_append_left _ h1

/-- C4 witness: the theorem applied to a concrete run whose conflict
listing is empty. -/
theorem C4_zero_conflicts_skip_witness :
    (∀ e ∈ (performRebase baseCfg okEnv).2, e.isResolvePhase = false) ∧
    Event.runTestsEv ∈ (performRebase baseCfg okEnv).2 :=
  C4_zero_conflicts_skip baseCfg okEnv rfl rfl

/-- AI-resolve calls distribute over trace concatenation. -/
theorem aiCallsOf_append (a b : List Event) :
    aiCallsOf (a ++ b) = aiCallsOf a ++ aiCallsOf b := by
  induction a with
  | nil => rfl
  | cons e t ih => cases e <;> simp [aiCallsOf, ih]

/-- One loop iteration makes exactly one AI-resolve call, for the
iteration's file, whatever the call results are. -/
theorem resolveOne_aiCalls (env : Env) (c : GitConflict) :
    aiCallsOf (resolveOne env c).2 = [c.file] := by
  unfold resolveOne
  rcases env.aiResolve c.file with _ | _ | _ <;>
    rcases env.applyRes c.file with _ | _ | _ <;>
      simp [seq, aiCallsOf]

/-- One loop iteration succeeds exactly when its AI call and its
application both return normally. -/
theorem resolveOne_ok_iff (env : Env) (c : GitConflict) :
    (resolveOne env c).1 = .ok () ↔
      (∃ r, env.aiResolve c.file = .ok r) ∧ env.applyRes c.file = .ok () := by
  unfold resolveOne
  rcases h1 : env.aiResolve c.file with r | m | _ <;>
    rcases h2 : env.applyRes c.file with u | m2 | _ <;>
      simp [seq, h1, h2]

/-- The loop's AI calls form a prefix of the conflict files, in the
extraction order. -/
theorem resolveLoop_calls_pre (env : Env) (cs : List GitConflict) :
    aiCallsOf (resolveLoop env cs).2 <+: cs.map GitConflict.file := by
  induction cs with
  | nil => simp [resolveLoop, aiCallsOf]
  | cons c rest ih =>
    unfold resolveLoop
    rcases h1 : resolveOne env c with ⟨r1, t1⟩
    have hcalls : aiCallsOf t1 = [c.file] := by
      have h2 := resolveOne_aiCalls env c
      rw [h1] at h2
      exact h2
    cases r1 with
    | ok _ =>
      simp only [seq]
      rw [aiCallsOf_append, hcalls]
      obtain ⟨t, ht⟩ := ih
      exact ⟨t, by simp [ht]⟩
    | err m =>
      simp only [seq]
      rw [hcalls]
      exact ⟨List.map GitConflict.file rest, rfl⟩
    | crash =>
      simp only [seq]
      rw [hcalls]
      exact ⟨List.map GitConflict.file rest, rfl⟩

/-- When every per-file step succeeds, the loop succeeds and makes
exactly one AI call per conflict, in order. -/
theorem resolveLoop_all_ok (env : Env) (cs : List GitConflict)
    (h : ∀ c ∈ cs, (∃ r, env.aiResolve c.file = .ok r) ∧ env.applyRes c.file = .ok ()) :
    (resolveLoop env cs).1 = .ok () ∧
    aiCallsOf (resolveLoop env cs).2 = cs.map GitConflict.file := by
  induction cs with
  | nil => exact ⟨rfl, rfl⟩
  | cons c rest ih =>
    have hok : (resolveOne env c).1 = .ok () :=
      (resolveOne_ok_iff env c).mpr (h c (List.mem_cons_self c rest))
    obtain ⟨ih1, ih2⟩ := ih (fun c' hc' => h c' (List.mem_cons_of_mem _ hc'))
    unfold resolveLoop
    rcases h1 : resolveOne env c with ⟨r1, t1⟩
    rw [h1] at hok
    dsimp at hok
    subst hok
    have hcalls : aiCallsOf t1 = [c.file] := by
      have h2 := resolveOne_aiCalls env c
      rw [h1] at h2
      exact h2
    exact ⟨by simp [seq, ih1], by simp [seq, aiCallsOf_append, hcalls, ih2]⟩

/-- The commit step makes no AI-resolve call. -/
theorem commitStep_aiCalls (env : Env) (cs : List GitConflict) :
    aiCallsOf (commitStep env cs).2 = [] := by
  unfold commitStep
  rcases env.commitMsgRes with _ | _ | _ <;>
    rcases env.commitRes with _ | _ | _ <;>
      simp [seq, call, aiCallsOf]

/-- The resolve phase's AI calls are exactly the loop's AI calls. -/
theorem resolve_aiCalls_eq_loop (env : Env) (cs : List GitConflict) :
    aiCallsOf (resolveConflictsWithAI env cs).2 =
      aiCallsOf (resolveLoop env cs).2 := by
  unfold resolveConflictsWithAI
  rcases h : resolveLoop env cs with ⟨r, tr⟩
  cases r with
  | ok _ =>
    simp only [seq]
    rw [aiCallsOf_append, commitStep_aiCalls, List.append_nil]
  | err m => rfl
  | crash => rfl

/-- C5: the resolve phase issues its AI ResolveConflict calls
sequentially in extraction order: the call sequence is a prefix of the
extracted conflict-file list, each file receives at most as many calls
as it has conflict records (so exactly-one-per-file conflicts get at
most one call), and the sequence equals the whole file list when every
per-file step succeeds. -/
theorem C5_sequential_one_call_per_file (env : Env) (cs : List GitConflict) :
    aiCallsOf (resolveConflictsWithAI env cs).2 <+: cs.map GitConflict.file ∧
    ((∀ c ∈ cs, (∃ r, env.aiResolve c.file = .ok r) ∧ env.applyRes c.file = .ok ()) →
      aiCallsOf (resolveConflictsWithAI env cs).2 = cs.map GitConflict.file) ∧
    (∀ f, (aiCallsOf (resolveConflictsWithAI env cs).2).count f ≤
      (cs.map GitConflict.file).count f) := by
  rw [resolve_aiCalls_eq_loop]
  refine ⟨resolveLoop_calls_pre env cs, ?_, ?_⟩
  · intro h
    exact (resolveLoop_all_ok env cs h).2
  · intro f
    exact (resolveLoop_calls_pre env cs).count_le f

/-- C5 witness: two distinct conflicts under a fully successful
environment get exactly the two AI calls, in order, at most once per
file. -/
theorem C5_sequential_witness :
    aiCallsOf (resolveConflictsWithAI okEnv [aConflict, bConflict]).2 =
      [str "a.go", str "b.go"] ∧
    (aiCallsOf (resolveConflictsWithAI okEnv [aConflict, bConflict]).2).count
      (str "a.go") ≤ 1 := by
  have h := C5_sequential_one_call_per_file okEnv [aConflict, bConflict]
  refine ⟨?_, le_trans (h.2.2 (str "a.go")) (by decide)⟩
  have h2 := h.2.1 (by intro c hc; exact ⟨⟨str "r", rfl⟩, rfl⟩)
  rw [h2]
  rfl

/-- A trace of per-file resolve events contains no commit-message
call. -/
theorem commitMsgCallsOf_eq_nil (tr : List Event)
    (h : ∀ e ∈ tr, (∃ f, e = Event.aiResolveEv f) ∨ (∃ f, e = Event.applyEv f)) :
    commitMsgCallsOf tr = [] := by
  induction tr with
  | nil => rfl
  | cons e t ih =>
    have he := h e (List.mem_cons_self e t)
    have ht := ih (fun e' h' => h e' (List.mem_cons_of_mem _ h'))
    rcases he with ⟨f, rfl⟩ | ⟨f, rfl⟩ <;> simp [commitMsgCallsOf, ht]

/-- A trace of per-file resolve events contains no commit. -/
theorem count_commit_eq_zero (tr : List Event)
    (h : ∀ e ∈ tr, (∃ f, e = Event.aiResolveEv f) ∨ (∃ f, e = Event.applyEv f)) :
    commitCallsOf tr = 0 := by
  induction tr with
  | nil => rfl
  | cons e t ih =>
    have he := h e (List.mem_cons_self e t)
    have ht := ih (fun e' h' => h e' (List.mem_cons_of_mem _ h'))
    rcases he with ⟨f, rfl⟩ | ⟨f, rfl⟩ <;> simp [commitCallsOf, ht]

/-- Commit calls distribute over trace concatenation. -/
theorem commitCallsOf_append (a b : List Event) :
    commitCallsOf (a ++ b) = commitCallsOf a + commitCallsOf b := by
  induction a with
  | nil => simp [commitCallsOf]
  | cons e t ih => cases e <;> simp [commitCallsOf, ih, Nat.add_right_comm]

/-- Commit-message calls distribute over trace concatenation. -/
theorem commitMsgCallsOf_append (a b : List Event) :
    commitMsgCallsOf (a ++ b) = commitMsgCallsOf a ++ commitMsgCallsOf b := by
  induction a with
  | nil => rfl
  | cons e t ih => cases e <;> simp [commitMsgCallsOf, ih]

/-- The commit step always makes exactly one commit-message call,
batched over the full file list. -/
theorem commitStep_msgCalls (env : Env) (cs : List GitConflict) :
    commitMsgCallsOf (commitStep env cs).2 = [cs.map GitConflict.file] := by
  unfold commitStep
  rcases env.commitMsgRes with _ | _ | _ <;>
    rcases env.commitRes with _ | _ | _ <;>
      simp [seq, call, commitMsgCallsOf]

/-- When message generation and the commit both return normally, the
commit step succeeds with exactly those two calls. -/
theorem commitStep_ok (env : Env) (cs : List GitConflict)
    (h1 : ∃ m, env.commitMsgRes = .ok m) (h2 : env.commitRes = .ok ()) :
    commitStep env cs =
      (.ok (), [.aiCommitMsgEv (cs.map GitConflict.file), .gitCommitEv]) := by
  obtain ⟨m, h1⟩ := h1
  unfold commitStep
  rw [h1]
  simp [seq, call, h2]

/-- When some per-file step returns an error, the loop aborts with an
error message that names the failing file. -/
theorem resolveLoop_firstErr (env : Env) (cs : List GitConflict) (f : Str)
    (h : firstResErr env cs = some f) :
    ∃ m, (resolveLoop env cs).1 = .err m ∧ f <:+: m := by
  induction cs with
  | nil => simp [firstResErr] at h
  | cons c rest ih =>
    unfold firstResErr at h
    rcases h1 : env.aiResolve c.file with r | m1 | _
    · rw [h1] at h
      rcases h2 : env.applyRes c.file with u | m2 | _
      · obtain ⟨⟩ := u
        rw [h2] at h
        obtain ⟨m, hm1, hm2⟩ := ih h
        refine ⟨m, ?_, hm2⟩
        have hok : (resolveOne env c).1 = .ok () :=
          (resolveOne_ok_iff env c).mpr ⟨⟨r, h1⟩, h2⟩
        unfold resolveLoop
        rcases h3 : resolveOne env c with ⟨r1, t1⟩
        rw [h3] at hok
        dsimp at hok
        subst hok
        simp [seq, hm1]
      · rw [h2] at h
        obtain rfl : c.file = f := Option.some.inj h
        refine ⟨str "failed to apply resolution for " ++ c.file ++ str ": " ++ m2,
          ?_, ?_⟩
        · unfold resolveLoop resolveOne
          rw [h1, h2]
          simp [seq]
        · exact ⟨str "failed to apply resolution for ", str ": " ++ m2, by simp⟩
      · rw [h2] at h
        exact absurd h (by simp)
    · rw [h1] at h
      obtain rfl : c.file = f := Option.some.inj h
      refine ⟨str "AI failed to resolve conflict in " ++ c.file ++ str ": " ++ m1,
        ?_, ?_⟩
      · unfold resolveLoop resolveOne
        rw [h1]
        simp [seq]
      · exact ⟨str "AI failed to resolve conflict in ", str ": " ++ m1, by simp⟩
    · rw [h1] at h
      exact absurd h (by simp)

/-- C6: when every per-file resolution succeeds, the resolve phase makes
exactly one commit-message call, batched over the full resolved-file
list, and (when the message generation and the commit return normally)
creates exactly one commit and succeeds; when some per-file step fails,
no commit and no commit-message call are made and the phase aborts with
an error naming the failing file. -/
theorem C6_single_batched_commit (env : Env) (cs : List GitConflict) :
    ((∀ c ∈ cs, (∃ r, env.aiResolve c.file = .ok r) ∧ env.applyRes c.file = .ok ()) →
      commitMsgCallsOf (resolveConflictsWithAI env cs).2 = [cs.map GitConflict.file] ∧
      ((∃ m, env.commitMsgRes = .ok m) → env.commitRes = .ok () →
        commitCallsOf (resolveConflictsWithAI env cs).2 = 1 ∧
        (resolveConflictsWithAI env cs).1 = .ok ())) ∧
    (∀ f, firstResErr env cs = some f →
      Event.gitCommitEv ∉ (resolveConflictsWithAI env cs).2 ∧
      (∀ fs, Event.aiCommitMsgEv fs ∉ (resolveConflictsWithAI env cs).2) ∧
      ∃ m, (resolveConflictsWithAI env cs).1 = .err m ∧ f <:+: m) := by
  constructor
  · intro hall
    obtain ⟨hok, _⟩ := resolveLoop_all_ok env cs hall
    rcases hl : resolveLoop env cs with ⟨rl, tl⟩
    rw [hl] at hok
    dsimp at hok
    subst hok
    have hloopev : ∀ e ∈ tl, (∃ f, e = Event.aiResolveEv f) ∨
        (∃ f, e = Event.applyEv f) := by
      have h := resolveLoop_events env cs
      rw [hl] at h
      exact h
    constructor
    · show commitMsgCallsOf (seq (resolveLoop env cs) fun _ => commitStep env cs).2 = _
      rw [hl]
      simp only [seq]
      rw [commitMsgCallsOf_append, commitMsgCallsOf_eq_nil tl hloopev,
        commitStep_msgCalls, List.nil_append]
    · intro hm hc
      have hcs := commitStep_ok env cs hm hc
      constructor
      · show commitCallsOf (seq (resolveLoop env cs) fun _ => commitStep env cs).2 = 1
        rw [hl]
        simp only [seq]
        rw [hcs]
        rw [commitCallsOf_append, count_commit_eq_zero tl hloopev]
        rfl
      · show (seq (resolveLoop env cs) fun _ => commitStep env cs).1 = _
        rw [hl]
        simp only [seq]
        rw [hcs]
  · intro f hf
    obtain ⟨m, hm, hinf⟩ := resolveLoop_firstErr env cs f hf
    rcases hl : resolveLoop env cs with ⟨rl, tl⟩
    rw [hl] at hm
    dsimp at hm
    subst hm
    have hloopev : ∀ e ∈ tl, (∃ f, e = Event.aiResolveEv f) ∨
        (∃ f, e = Event.applyEv f) := by
      have h := resolveLoop_events env cs
      rw [hl] at h
      exact h
    have htr : (resolveConflictsWithAI env cs).2 = tl := by
      unfold resolveConflictsWithAI
      rw [hl]
      rfl
    have hres : (resolveConflictsWithAI env cs).1 = .err m := by
      unfold resolveConflictsWithAI
      rw [hl]
      rfl
    refine ⟨?_, ?_, m, hres, hinf⟩
    · rw [htr]
      intro hmem
      rcases hloopev _ hmem with ⟨g, hg⟩ | ⟨g, hg⟩ <;> simp at hg
    · intro fs
      rw [htr]
      intro hmem
      rcases hloopev _ hmem with ⟨g, hg⟩ | ⟨g, hg⟩ <;> simp at hg

/-- C6 witness: the successful branch applied to one concrete conflict
under a fully successful environment. -/
theorem C6_single_batched_commit_witness :
    commitMsgCallsOf (resolveConflictsWithAI okEnv [aConflict]).2 = [[str "a.go"]] ∧
    commitCallsOf (resolveConflictsWithAI okEnv [aConflict]).2 = 1 ∧
    (resolveConflictsWithAI okEnv [aConflict]).1 = .ok () := by
  have h := (C6_single_batched_commit okEnv [aConflict]).1
    (by intro c hc; exact ⟨⟨str "r", rfl⟩, rfl⟩)
  have h2 := h.2 ⟨str "m", rfl⟩ rfl
  exact ⟨h.1, h2.1, h2.2⟩

/-- C7: a rebase error leads to conflict extraction exactly when its
message contains "conflict" or "CONFLICT"; otherwise the rebase phase is
fatal: the run returns an error and neither the conflict listing nor any
AI resolution is performed. -/
theorem C7_rebase_error_classification (cfg : Config) (env : Env) (msg : Str)
    (hsetup : (setupWorkingDirectory env).1 = .ok ())
    (hcb : env.createBranchRes = .ok ())
    (hre : env.rebaseRes = .err msg)
    (hnc : env.notifyRes (str "AI Rebaser - Git Rebase Failed") ≠ .crash) :
    ((str "conflict" <:+: msg ∨ str "CONFLICT" <:+: msg) →
      Event.listConflictsEv ∈ (performRebase cfg env).2) ∧
    (¬(str "conflict" <:+: msg ∨ str "CONFLICT" <:+: msg) →
      Event.listConflictsEv ∉ (performRebase cfg env).2 ∧
      (∀ f, Event.aiResolveEv f ∉ (performRebase cfg env).2) ∧
      ∃ m, (performRebase cfg env).1 = .err m) := by
  have hsig : isConflictError msg = true ↔
      (str "conflict" <:+: msg ∨ str "CONFLICT" <:+: msg) := by
    unfold isConflictError
    rw [Bool.or_eq_true, goContains_iff, goContains_iff]
  constructor
  · intro hs
    have hce : isConflictError msg = true := hsig.mpr hs
    have hmem : Event.listConflictsEv ∈ (performGitRebase env).2 := by
      unfold performGitRebase rebaseStep
      rw [hcb, hre]
      rcases env.listing with _ | _ | _ <;> simp [seq, call, hce]
    exact List.mem_append_left _ (rebase_mem_body cfg env _ hsetup hmem)
  · intro hs
    have hce : isConflictError msg = false := by
      cases h : isConflictError msg
      · rfl
      · exact absurd (hsig.mp h) hs
    have hgr : performGitRebase env =
        (.err (str "unexpected rebase error: " ++ msg),
         [.createBranchEv, .rebaseEv]) := by
      unfold performGitRebase rebaseStep
      rw [hcb, hre]
      simp [seq, call, hce]
    rcases hsp : setupWorkingDirectory env with ⟨rS, trS⟩
    rw [hsp] at hsetup
    dsimp at hsetup
    subst hsetup
    have hbody : performBody cfg env =
        (.err (str "git rebase failed: " ++ (str "unexpected rebase error: " ++ msg)),
         (trS ++ [.createBranchEv, .rebaseEv]) ++ [.notifyEv true]) := by
      rcases hnr : env.notifyRes (str "AI Rebaser - Git Rebase Failed") with _ | _ | _
      · simp [performBody, hsp, hgr, failWith, hnr]
      · simp [performBody, hsp, hgr, failWith, hnr]
      · exact absurd hnr hnc
    have hnl : ∀ e, e ∈ (performRebase cfg env).2 →
        e ∈ trS ∨ e = Event.createBranchEv ∨ e = Event.rebaseEv ∨
        e = Event.notifyEv true ∨ e.isCleanup = true := by
      intro e he
      unfold performRebase at he
      rcases List.mem_append.mp he with hb | hc
      · rw [hbody] at hb
        dsimp at hb
        rcases List.mem_append.mp hb with h1 | h1
        · rcases List.mem_append.mp h1 with h2 | h2
          · exact Or.inl h2
          · rcases List.mem_cons.mp h2 with rfl | h3
            · exact Or.inr (Or.inl rfl)
            · simp at h3
              subst h3
              exact Or.inr (Or.inr (Or.inl rfl))
        · simp at h1
          subst h1
          exact Or.inr (Or.inr (Or.inr (Or.inl rfl)))
      · exact Or.inr (Or.inr (Or.inr (Or.inr
          (cleanup_events_isCleanup cfg.keepArtifacts (bodyDir env) e hc))))
    refine ⟨?_, ?_, ?_⟩
    · intro hmem
      rcases hnl _ hmem with h | h | h | h | h
      · rcases setup_events env _ (by rw [hsp]; exact h) with h2 | h2 | h2 <;>
          exact Event.noConfusion h2
      · exact Event.noConfusion h
      · exact Event.noConfusion h
      · exact Event.noConfusion h
      · simp [Event.isCleanup] at h
    · intro f hmem
      rcases hnl _ hmem with h | h | h | h | h
      · rcases setup_events env _ (by rw [hsp]; exact h) with h2 | h2 | h2 <;>
          exact Event.noConfusion h2
      · exact Event.noConfusion h
      · exact Event.noConfusion h
      · exact Event.noConfusion h
      · simp [Event.isCleanup] at h
    · refine ⟨str "git rebase failed: " ++ (str "unexpected rebase error: " ++ msg), ?_⟩
      show (performBody cfg env).1 = _
      rw [hbody]

/-- C7 witness: the fatal branch applied to a concrete rebase error with
no conflict signature. -/
theorem C7_rebase_error_classification_witness :
    Event.listConflictsEv ∉ (performRebase baseCfg rebaseFatalEnv).2 ∧
    (∀ f, Event.aiResolveEv f ∉ (performRebase baseCfg rebaseFatalEnv).2) ∧
    ∃ m, (performRebase baseCfg rebaseFatalEnv).1 = .err m :=
  (C7_rebase_error_classification baseCfg rebaseFatalEnv
    (str "exit status 128") rfl rfl rfl
    (fun h => Res.noConfusion h)).2 (by
      intro hs
      have h1 : isConflictError (str "exit status 128") = true := by
        unfold isConflictError
        rw [Bool.or_eq_true, goContains_iff, goContains_iff]
        exact hs
      exact Bool.noConfusion ((rfl :
        isConflictError (str "exit status 128") = false).symm.trans h1))

/-- C10: with an empty configured test-command list, RunTests returns a
trivially successful outcome (no per-command results, no failed names,
zero duration) without executing any command, the test phase passes, and
the run proceeds to the publish phase. -/
theorem C10_empty_tests_trivial_pass (cfg : Config) (env : Env)
    (cs : List GitConflict)
    (hcmds : cfg.testCommands = [])
    (hsetup : (setupWorkingDirectory env).1 = .ok ())
    (hreb : (performGitRebase env).1 = .ok cs)
    (hres : cs = [] ∨ (resolveConflictsWithAI env cs).1 = .ok ())
    (htc : env.testCall = .ok ()) :
    RunTests env cfg.testCommands =
      { success := true, duration := 0, results := [], failedTests := [] } ∧
    (runTests cfg env).1 = .ok () ∧
    (∀ n, Event.runCmdEv n ∉ (performRebase cfg env).2) ∧
    Event.pushEv ∈ (performRebase cfg env).2 := by
  have hRT : RunTests env cfg.testCommands =
      { success := true, duration := 0, results := [], failedTests := [] } := by
    unfold RunTests
    rw [if_pos hcmds]
  have hrt : (runTests cfg env).1 = .ok () := by
    unfold runTests
    rw [htc]
    simp [hRT]
  refine ⟨hRT, hrt, ?_, ?_⟩
  · intro n hmem
    unfold performRebase at hmem
    rcases List.mem_append.mp hmem with hb | hc
    · have htst : ∀ e ∈ (runTests cfg env).2, ∀ m, e ≠ Event.runCmdEv m := by
        unfold runTests
        rw [htc]
        simp [hcmds, RunTests]
      have h := performBody_pred (fun e => ∀ m, e ≠ Event.runCmdEv m) cfg env
        ?_ ?_ ?_ htst ?_ ?_ _ hb
      · exact h n rfl
      · intro e he
        rcases setup_events env e he with rfl | rfl | rfl <;> intro m <;>
          exact fun h2 => Event.noConfusion h2
      · intro e he
        rcases gitRebase_events env e he with rfl | rfl | rfl <;> intro m <;>
          exact fun h2 => Event.noConfusion h2
      · intro cs' e he
        have h2 := resolve_events env cs' e he
        intro m hm
        subst hm
        simp [Event.isResolvePhase] at h2
      · intro e he
        rcases publish_events cfg env e he with rfl | rfl | rfl | rfl <;> intro m <;>
          exact fun h2 => Event.noConfusion h2
      · intro b m
        exact fun h2 => Event.noConfusion h2
    · have h := cleanup_events_isCleanup cfg.keepArtifacts (bodyDir env) _ hc
      simp [Event.isCleanup] at h
  · have hp : Event.pushEv ∈ (runTestsAndAfter cfg env).2 :=
      push_mem_runTestsAndAfter cfg env hrt
    have hb := mem_body_of_after cfg env cs _ hsetup hreb hres hp
    unfold performRebase
    exact List.mem_append_left _ hb

/-- C10 witness: the theorem applied to a concrete run with no test
commands. -/
theorem C10_empty_tests_trivial_pass_witness :
    RunTests okEnv baseCfg.testCommands =
      { success := true, duration := 0, results := [], failedTests := [] } ∧
    (runTests baseCfg okEnv).1 = .ok () ∧
    (∀ n, Event.runCmdEv n ∉ (performRebase baseCfg okEnv).2) ∧
    Event.pushEv ∈ (performRebase baseCfg okEnv).2 :=
  C10_empty_tests_trivial_pass baseCfg okEnv [] rfl rfl rfl
    (Or.inl rfl) rfl

end Rebaiser
